import Mathlib

/-!
Verification of the MSpreadEngine propagation engine against its
natural-language specification.

The engine is shallowly embedded: device attributes, the per-step spread
algorithm (privilege boundary, latency, spread patterns), the simulation
driver loop, and the batch attribute assignment are translated into
executable Lean definitions.  The privilege-filter logic follows the
implementation snippet quoted in `Documentation/ADMIN_USER_LOGIC.md`
(non-admin sources only spread to non-admin neighbours, attribute lookups
defaulting to `true`); the batch logic follows the
`_apply_node_definitions` code quoted in
`Docs/BATCH_LOGIC_IMPLEMENTATION.md`.  The parts of the engine whose
Python source is not part of the delivered material (the unified
config-driven malware step, the simulation driver) are modelled from the
specification, as noted on each definition.
-/

namespace MSpread

/-- Per-device attribute map mirroring `DEFAULT_DEVICE_ATTRIBUTES` in
`network_model/network_graph.py` (quoted in the device-attributes
implementation summary): every key is optional, `none` meaning the key is
unset. -/
structure Attrs where
  os : Option String := none
  patch_status : Option String := none
  device_type : Option String := some "workstation"
  firewall_enabled : Option Bool := none
  antivirus : Option Bool := none
  admin_user : Option Bool := some true
deriving DecidableEq

/-- Undirected device graph: dense integer node ids `0..n-1` and a
boolean adjacency predicate. -/
structure Graph where
  n : Nat
  adj : Nat → Nat → Bool

/-- Spread pattern of the malware configuration. -/
inductive Pattern
  | random
  | bfs
  | dfs
deriving DecidableEq

/-- Modelled from the spec: `MalwareConfig` of §3 — `{infection_rate ∈ [0,1],
latency ≥ 0, spread_pattern, avoids_admin, requires_interaction, target_os?,
target_node_types?}` (the `type_label` is reporting-only and omitted). -/
structure MalwareConfig where
  infection_rate : ℚ
  latency : Nat
  spread_pattern : Pattern
  avoids_admin : Bool
  requires_interaction : Bool
  target_os : Option (List String)
  target_node_types : Option (List String)

/-- Infection state of one device: `Healthy`, `Incubating(since, activates_at)`
or `Infectious`. -/
inductive InfState
  | healthy
  | incubating (since activatesAt : Nat)
  | infectious
deriving DecidableEq

/-- `admin_user` lookup with the source's fallback chain: a device whose
attribute map is unavailable, or whose map lacks the `admin_user` key,
counts as admin.  Mirrors
`network.get_device_attributes(d).get('admin_user', True)` from the
`spread()` snippet in `Documentation/ADMIN_USER_LOGIC.md`. -/
def adminOf (attrs : Nat → Option Attrs) (d : Nat) : Bool :=
  ((attrs d).bind Attrs.admin_user).getD true

/-- Modelled from the spec: the optional `target_os` allow-set filter of
§4.4 step 3 — when configured, neighbours whose `os` is not in the
allow-set are removed. -/
def osAllowed (cfg : MalwareConfig) (a : Option Attrs) : Bool :=
  match cfg.target_os with
  | none => true
  | some allow => ((a.bind Attrs.os).map (fun o => allow.contains o)).getD false

/-- Modelled from the spec: the optional `target_node_types` allow-set
filter of §4.4 step 3, over the neighbour's `device_type`. -/
def typeAllowed (cfg : MalwareConfig) (a : Option Attrs) : Bool :=
  match cfg.target_node_types with
  | none => true
  | some allow => ((a.bind Attrs.device_type).map (fun o => allow.contains o)).getD false

/-- Eligibility of neighbour `t` for infection from infectious source `s`
in one spread step.  The structural and privilege conjuncts follow the
`spread()` snippet of `Documentation/ADMIN_USER_LOGIC.md`: `t` must be an
adjacent `Healthy` neighbour, and a non-admin source skips admin
neighbours.  The `avoids_admin` conjunct follows its documented behaviour
(`Docs/SWAGGER_UI_GUIDE.md`: "If True, blocks spread from non-admin
source to admin target"); the target allow-set filters follow §4.4. -/
def eligible (g : Graph) (attrs : Nat → Option Attrs) (st : Nat → InfState)
    (cfg : MalwareConfig) (s t : Nat) : Bool :=
  g.adj s t && (st t == InfState.healthy)
    && (adminOf attrs s || !adminOf attrs t)
    && (!cfg.avoids_admin || adminOf attrs s || !adminOf attrs t)
    && osAllowed cfg (attrs t) && typeAllowed cfg (attrs t)

/-- Eligible neighbour list of source `s` (ascending device ids). -/
def eligList (g : Graph) (attrs : Nat → Option Attrs) (st : Nat → InfState)
    (cfg : MalwareConfig) (s : Nat) : List Nat :=
  (List.range g.n).filter (fun t => eligible g attrs st cfg s t)

/-- Modelled from the spec: spread-pattern sampling of §4.4 step 5 —
`random`/`bfs` test the whole eligible frontier, `dfs` tests at most one
neighbour per source (the lowest device id, for determinism). -/
def tested (g : Graph) (attrs : Nat → Option Attrs) (st : Nat → InfState)
    (cfg : MalwareConfig) (s : Nat) : List Nat :=
  match cfg.spread_pattern with
  | Pattern.dfs => (eligList g attrs st cfg s).take 1
  | _ => eligList g attrs st cfg s

/-- Modelled from the spec: effective probability of §4.4 step 4,
`p = infection_rate × (0.6 if requires_interaction else 1.0)`. -/
def effRate (cfg : MalwareConfig) : ℚ :=
  if cfg.requires_interaction then cfg.infection_rate * (3 / 5)
  else cfg.infection_rate

/-- Modelled from the spec: one Bernoulli trial of §4.4 — source `s`
infects target `t` at step `k` when `s` is infectious in the snapshot,
`t` is among the sampled eligible neighbours, and the uniform draw
`u k s t ∈ [0,1)` falls below the effective probability. -/
def infectedBy (g : Graph) (attrs : Nat → Option Attrs) (cfg : MalwareConfig)
    (u : Nat → Nat → Nat → ℚ) (k : Nat) (st : Nat → InfState) (s t : Nat) : Bool :=
  (st s == InfState.infectious) && decide (t ∈ tested g attrs st cfg s)
    && decide (u k s t < effRate cfg)

/-- Modelled from the spec: the `newly_infected` set of one spread step —
duplicate targets across sources collapse to a single infection event
(the list is a filter of the id range, hence duplicate-free and
ascending). -/
def newlyList (g : Graph) (attrs : Nat → Option Attrs) (cfg : MalwareConfig)
    (u : Nat → Nat → Nat → ℚ) (k : Nat) (st : Nat → InfState) : List Nat :=
  (List.range g.n).filter (fun t =>
    (List.range g.n).any (fun s => infectedBy g attrs cfg u k st s t))

/-- Modelled from the spec: the state a freshly infected device enters at
step `k` (§4.4 step 6) — tagged `activates_at = k + latency`, and when
`latency == 0` it becomes `Infectious` in the same step. -/
def infectState (cfg : MalwareConfig) (k : Nat) : InfState :=
  if cfg.latency = 0 then InfState.infectious
  else InfState.incubating k (k + cfg.latency)

/-- Modelled from the spec: the driver's per-step state update (§4.5) —
apply the infection delta of step `k`, and promote any incubating device
whose `activates_at_step` equals the current step to `Infectious`. -/
def applyDelta (cfg : MalwareConfig) (k : Nat) (newly : List Nat)
    (st : Nat → InfState) : Nat → InfState :=
  fun d =>
    if d ∈ newly then infectState cfg k
    else
      match st d with
      | InfState.incubating since act =>
          if act = k then InfState.infectious else InfState.incubating since act
      | x => x

/-- Whether a device is incubating. -/
def isIncubating : InfState → Bool
  | InfState.incubating _ _ => true
  | _ => false

/-- Whether any device of `0..n-1` is still incubating (pending activation). -/
def anyIncubating (n : Nat) (st : Nat → InfState) : Bool :=
  (List.range n).any (fun d => isIncubating (st d))

/-- Cumulative infected count: devices that are no longer `Healthy`
(infectious or incubating). -/
def totalInfected (n : Nat) (st : Nat → InfState) : Nat :=
  (List.range n).countP (fun d => !(st d == InfState.healthy))

/-- One record of the append-only step history:
`{step_index, newly_infected, total_infectious_or_infected}`. -/
structure StepRecord where
  step : Nat
  newly : List Nat
  total : Nat
deriving DecidableEq

/-- Modelled from the spec: the driver loop of §4.5, abstracted over the
spread engine `engine k st` that returns step `k`'s `newly_infected` from
snapshot `st`.  Each iteration evaluates one step, applies the delta and
promotions, and stops either at the steady state — a step that infects
nobody with no incubating device pending activation, which (per Scenario
A, `total_steps = 1`) is not recorded — or when the step budget `fuel`
(the remaining distance to `max_steps`) runs out.  Returns the recorded
history, the final state, and the number of step evaluations
performed. -/
def runAux (n : Nat) (cfg : MalwareConfig)
    (engine : Nat → (Nat → InfState) → List Nat) :
    Nat → Nat → (Nat → InfState) → List StepRecord × (Nat → InfState) × Nat
  | 0, _, st => ([], st, 0)
  | fuel + 1, k, st =>
      if (engine k st).isEmpty && !anyIncubating n (applyDelta cfg k (engine k st) st) then
        ([], applyDelta cfg k (engine k st) st, 1)
      else
        (⟨k, engine k st, totalInfected n (applyDelta cfg k (engine k st) st)⟩ ::
            (runAux n cfg engine fuel (k + 1) (applyDelta cfg k (engine k st) st)).1,
          (runAux n cfg engine fuel (k + 1) (applyDelta cfg k (engine k st) st)).2.1,
          (runAux n cfg engine fuel (k + 1) (applyDelta cfg k (engine k st) st)).2.2 + 1)

/-- Modelled from the spec: `initialize(initial_infected)` marks each
listed device `Infectious` immediately. -/
def initState (ids : List Nat) : Nat → InfState :=
  fun d => if d ∈ ids then InfState.infectious else InfState.healthy

/-- Modelled from the spec: `SimulationDriver.run(max_steps)` — step
indices start at 1 and the loop is capped at `max_steps` evaluated
steps. -/
def run (g : Graph) (attrs : Nat → Option Attrs) (cfg : MalwareConfig)
    (u : Nat → Nat → Nat → ℚ) (maxSteps : Nat) (ids : List Nat) :
    List StepRecord × (Nat → InfState) × Nat :=
  runAux g.n cfg (newlyList g attrs cfg u) maxSteps 1 (initState ids)

/-- Modelled from the spec: the infection-state trajectory of a run —
`iterState … k` is the driver's state after step `k` has been applied
(`k = 0` being the initialized state), so the snapshot consumed by the
step-`k` evaluation is `iterState … (k-1)`. -/
def iterState (g : Graph) (attrs : Nat → Option Attrs) (cfg : MalwareConfig)
    (u : Nat → Nat → Nat → ℚ) (ids : List Nat) : Nat → Nat → InfState
  | 0 => initState ids
  | k + 1 =>
      applyDelta cfg (k + 1)
        (newlyList g attrs cfg u (k + 1) (iterState g attrs cfg u ids k))
        (iterState g attrs cfg u ids k)

/-- One attribute batch (`NodeDefinition` of `api/api.py`, quoted in
`Docs/BATCH_LOGIC_IMPLEMENTATION.md`): a device count and the attribute
map to apply, the latter kept abstract. -/
structure NodeDefinition (α : Type) where
  count : Nat
  attributes : α

/-- Pointwise store update: device `i` now carries attributes `a`. -/
def setAttr {α : Type} (store : Nat → Option α) (i : Nat) (a : α) :
    Nat → Option α :=
  fun j => if j = i then some a else store j

/-- Inner loop of `_apply_node_definitions` (quoted in
`Docs/BATCH_LOGIC_IMPLEMENTATION.md`): `count` iterations starting at
device id `nodeId`, writing the batch attributes whenever
`device_<nodeId>` exists in the graph (node ids are dense `0..n-1`, so
the membership test is `nodeId < n`), and always advancing the id
counter.  Returns the advanced counter and the updated store. -/
def applyBatchLoop {α : Type} (n : Nat) (a : α) :
    Nat → Nat → (Nat → Option α) → Nat × (Nat → Option α)
  | 0, nodeId, store => (nodeId, store)
  | c + 1, nodeId, store =>
      applyBatchLoop n a c (nodeId + 1)
        (if nodeId < n then setAttr store nodeId a else store)

/-- Outer loop of `_apply_node_definitions`: consume the batches in
order, threading the device-id counter. -/
def applyDefs {α : Type} (n : Nat) :
    List (NodeDefinition α) → Nat → (Nat → Option α) → Nat → Option α
  | [], _, store => store
  | d :: ds, nodeId, store =>
      let r := applyBatchLoop n d.attributes d.count nodeId store
      applyDefs n ds r.1 r.2

/-- `_apply_node_definitions(network, node_definitions)` in sequential
mode, as quoted in `Docs/BATCH_LOGIC_IMPLEMENTATION.md`: walk device ids
from 0, consuming batches in sequence. -/
def applyNodeDefinitions {α : Type} (n : Nat) (defs : List (NodeDefinition α))
    (store : Nat → Option α) : Nat → Option α :=
  applyDefs n defs 0 store

/-- Sum of the counts of the first `i` batches: the start of batch `i`'s
claimed id range. -/
def countBefore {α : Type} (defs : List (NodeDefinition α)) (i : Nat) : Nat :=
  ((defs.take i).map NodeDefinition.count).sum

/-- Total device count claimed by all batches. -/
def totalCount {α : Type} (defs : List (NodeDefinition α)) : Nat :=
  (defs.map NodeDefinition.count).sum

/-- Modelled from the spec: the inner loop of random-distribution batch
assignment (§4.3) — the same ordered `(device_id, attributes)` pairing as
the sequential mode, but each write lands on the permuted device id
`π nodeId` (when that device exists in the graph). -/
def randBatchLoop {α : Type} (n : Nat) (π : Equiv.Perm Nat) (a : α) :
    Nat → Nat → (Nat → Option α) → Nat × (Nat → Option α)
  | 0, nodeId, store => (nodeId, store)
  | c + 1, nodeId, store =>
      randBatchLoop n π a c (nodeId + 1)
        (if π nodeId < n then setAttr store (π nodeId) a else store)

/-- Modelled from the spec: the outer loop of random-distribution batch
assignment, consuming batches in sequence like the sequential mode. -/
def randDefs {α : Type} (n : Nat) (π : Equiv.Perm Nat) :
    List (NodeDefinition α) → Nat → (Nat → Option α) → Nat → Option α
  | [], _, store => store
  | d :: ds, nodeId, store =>
      let r := randBatchLoop n π d.attributes d.count nodeId store
      randDefs n π ds r.1 r.2

/-- Modelled from the spec: `_apply_node_definitions` in random mode
(§4.3) — build the same ordered pairing as the sequential mode and apply
a permutation `π` of the device-id space to the device-id assignment
before writing. -/
def randApplyNodeDefinitions {α : Type} (n : Nat) (π : Equiv.Perm Nat)
    (defs : List (NodeDefinition α)) (store : Nat → Option α) :
    Nat → Option α :=
  randDefs n π defs 0 store

/-! ### Concrete fixtures used by witnesses and counterexamples -/

/-- Baseline malware configuration: certain infection (`rate = 1`), no
latency, `random` pattern, no admin avoidance, no interaction, no target
filters. -/
def cfg0 : MalwareConfig := ⟨1, 0, Pattern.random, false, false, none, none⟩

/-- `cfg0` with `avoids_admin = true`. -/
def cfgAv : MalwareConfig := { cfg0 with avoids_admin := true }

/-- `cfg0` with `latency = 2`. -/
def cfgL2 : MalwareConfig := { cfg0 with latency := 2 }

/-- Degenerate randomness: every uniform draw is 0. -/
def uZero : Nat → Nat → Nat → ℚ := fun _ _ _ => 0

/-- Complete topology on `n` devices. -/
def gC (n : Nat) : Graph := ⟨n, fun i j => i != j⟩

/-- Attribute map of an admin device (all defaults). -/
def adminA : Attrs := {}

/-- Attribute map of a non-admin device. -/
def nonAdminA : Attrs := { admin_user := some false }

/-- Attribute map lacking the `admin_user` key. -/
def noKeyA : Attrs := { admin_user := none }

/-- Store where device 0 is non-admin and everyone else is admin. -/
def attrsW : Nat → Option Attrs := fun d => if d = 0 then some nonAdminA else some adminA

/-- Store where every device is admin. -/
def attrsAdminW : Nat → Option Attrs := fun _ => some adminA

/-- Store where device 0 has no attribute map, device 1 lacks the
`admin_user` key, and everyone else is non-admin. -/
def attrsMissW : Nat → Option Attrs :=
  fun d => if d = 0 then none else if d = 1 then some noKeyA else some nonAdminA

/-- State with device 0 infectious and everyone else healthy. -/
def stW : Nat → InfState := initState [0]

/-! ### Spread-step lemmas -/

/-- The sampled targets of a source are among its eligible neighbours. -/
theorem mem_of_mem_tested {g : Graph} {attrs : Nat → Option Attrs}
    {st : Nat → InfState} {cfg : MalwareConfig} {s t : Nat}
    (h : t ∈ tested g attrs st cfg s) : t ∈ eligList g attrs st cfg s := by
  unfold tested at h
  cases hp : cfg.spread_pattern <;> rw [hp] at h
  · exact h
  · exact h
  · exact List.take_subset _ _ h

/-- A non-admin source's eligibility test rejects every admin neighbour. -/
theorem eligible_nonadmin_blocked {g : Graph} {attrs : Nat → Option Attrs}
    {st : Nat → InfState} {cfg : MalwareConfig} {s t : Nat}
    (hs : adminOf attrs s = false) (ht : adminOf attrs t = true) :
    eligible g attrs st cfg s t = false := by
  simp [eligible, hs, ht]

/-- Every eligible neighbour of a non-admin source is non-admin. -/
theorem eligList_nonadmin {g : Graph} {attrs : Nat → Option Attrs}
    {st : Nat → InfState} {cfg : MalwareConfig} {s t : Nat}
    (hs : adminOf attrs s = false) (ht : t ∈ eligList g attrs st cfg s) :
    adminOf attrs t = false := by
  have h := (List.mem_filter.mp ht).2
  cases hadm : adminOf attrs t
  · rfl
  · rw [eligible_nonadmin_blocked hs hadm] at h
    cases h

/-- C1: for every step and snapshot, a non-admin source's eligible
neighbour set contains only non-admin devices, and a non-admin source
never causes the infection of an admin neighbour. -/
theorem privilege_invariant (g : Graph) (attrs : Nat → Option Attrs)
    (cfg : MalwareConfig) (u : Nat → Nat → Nat → ℚ) (k : Nat)
    (st : Nat → InfState) (s t : Nat) (hs : adminOf attrs s = false) :
    (∀ t', t' ∈ eligList g attrs st cfg s → adminOf attrs t' = false)
    ∧ (adminOf attrs t = true → infectedBy g attrs cfg u k st s t = false) := by
  constructor
  · intro t' ht'
    exact eligList_nonadmin hs ht'
  · intro ht
    cases hib : infectedBy g attrs cfg u k st s t
    · rfl
    · exfalso
      simp only [infectedBy, Bool.and_eq_true, decide_eq_true_eq] at hib
      have hmem := mem_of_mem_tested hib.1.2
      have := eligList_nonadmin hs hmem
      rw [ht] at this
      cases this

/-- Witness for C1 at a concrete input: non-admin device 0 cannot infect
admin device 1 on a complete 2-device graph. -/
theorem privilege_invariant_witness :
    infectedBy (gC 2) attrsW cfg0 uZero 1 stW 0 1 = false :=
  (privilege_invariant (gC 2) attrsW cfg0 uZero 1 stW 0 1 (by decide)).2 (by decide)

/-- C2 counterexample: with `avoids_admin = true`, an admin source (device
0) still has its admin neighbour (device 1) in the eligible set and
infects it — admin targets are not removed "regardless of the source's
own privilege". -/
theorem avoids_admin_claim_cex :
    cfgAv.avoids_admin = true
    ∧ adminOf attrsAdminW 0 = true ∧ adminOf attrsAdminW 1 = true
    ∧ eligible (gC 2) attrsAdminW stW cfgAv 0 1 = true
    ∧ infectedBy (gC 2) attrsAdminW cfgAv uZero 1 stW 0 1 = true
    ∧ 1 ∈ newlyList (gC 2) attrsAdminW cfgAv uZero 1 stW := by
  decide

/-- C2 (amended): when `avoids_admin` is true, spread from a non-admin
source to an admin neighbour is blocked (the admin neighbour is not in
the eligible set), while an admin source's eligibility is unaffected by
the flag. -/
theorem avoids_admin_amended (g : Graph) (attrs : Nat → Option Attrs)
    (st : Nat → InfState) (cfg : MalwareConfig) (s : Nat)
    (_hav : cfg.avoids_admin = true) :
    (adminOf attrs s = false → ∀ t, adminOf attrs t = true →
      eligible g attrs st cfg s t = false ∧ t ∉ eligList g attrs st cfg s)
    ∧ (adminOf attrs s = true → ∀ t,
      eligible g attrs st cfg s t
        = eligible g attrs st { cfg with avoids_admin := false } s t) := by
  constructor
  · intro hs t ht
    refine ⟨eligible_nonadmin_blocked hs ht, fun hmem => ?_⟩
    have := eligList_nonadmin hs hmem
    rw [ht] at this
    cases this
  · intro hs t
    simp [eligible, hs, osAllowed, typeAllowed]

/-- Witness for C2's amended statement at a concrete input: with
`avoids_admin = true`, non-admin device 0 cannot reach admin device 1,
and the flag leaves admin device 1's eligibility test unchanged. -/
theorem avoids_admin_amended_witness :
    (eligible (gC 2) attrsW stW cfgAv 0 1 = false
      ∧ 1 ∉ eligList (gC 2) attrsW stW cfgAv 0)
    ∧ eligible (gC 2) attrsW stW cfgAv 1 0
        = eligible (gC 2) attrsW stW { cfgAv with avoids_admin := false } 1 0 :=
  ⟨(avoids_admin_amended (gC 2) attrsW stW cfgAv 0 (by decide)).1 (by decide) 1 (by decide),
   (avoids_admin_amended (gC 2) attrsW stW cfgAv 1 (by decide)).2 (by decide) 0⟩

/-- C10: a device whose attribute map is unavailable or lacks the
`admin_user` key is treated as admin — as a source it spreads with no
privilege restriction, and as a target it is protected from non-admin
sources. -/
theorem missing_admin_key_defaults (g : Graph) (attrs : Nat → Option Attrs)
    (st : Nat → InfState) (cfg : MalwareConfig) (d : Nat)
    (hd : (attrs d).bind Attrs.admin_user = none) :
    adminOf attrs d = true
    ∧ (∀ t, eligible g attrs st cfg d t
        = (g.adj d t && (st t == InfState.healthy)
            && osAllowed cfg (attrs t) && typeAllowed cfg (attrs t)))
    ∧ (∀ s, adminOf attrs s = false → eligible g attrs st cfg s d = false) := by
  have hadm : adminOf attrs d = true := by simp [adminOf, hd]
  refine ⟨hadm, fun t => ?_, fun s hs => eligible_nonadmin_blocked hs hadm⟩
  simp [eligible, hadm]

/-- Witness for C10 at a concrete input: device 0 (no attribute map) and
device 1 (map without the `admin_user` key) default to admin; device 0
spreads unrestricted and is protected from non-admin device 2. -/
theorem missing_admin_key_defaults_witness :
    adminOf attrsMissW 0 = true
    ∧ adminOf attrsMissW 1 = true
    ∧ eligible (gC 3) attrsMissW stW cfg0 0 2
        = ((gC 3).adj 0 2 && (stW 2 == InfState.healthy)
            && osAllowed cfg0 (attrsMissW 2) && typeAllowed cfg0 (attrsMissW 2))
    ∧ eligible (gC 3) attrsMissW stW cfg0 2 0 = false :=
  ⟨(missing_admin_key_defaults (gC 3) attrsMissW stW cfg0 0 (by decide)).1,
   (missing_admin_key_defaults (gC 3) attrsMissW stW cfg0 1 (by decide)).1,
   (missing_admin_key_defaults (gC 3) attrsMissW stW cfg0 0 (by decide)).2.1 2,
   (missing_admin_key_defaults (gC 3) attrsMissW stW cfg0 0 (by decide)).2.2 2 (by decide)⟩

/-! ### Batch-assignment lemmas -/

/-- `countBefore` at 0 is 0. -/
theorem countBefore_zero {α : Type} (defs : List (NodeDefinition α)) :
    countBefore defs 0 = 0 := rfl

/-- `countBefore` on a cons at a successor index. -/
theorem countBefore_cons_succ {α : Type} (d : NodeDefinition α)
    (ds : List (NodeDefinition α)) (i : Nat) :
    countBefore (d :: ds) (i + 1) = d.count + countBefore ds i := by
  simp [countBefore]

/-- `totalCount` on a cons. -/
theorem totalCount_cons {α : Type} (d : NodeDefinition α)
    (ds : List (NodeDefinition α)) :
    totalCount (d :: ds) = d.count + totalCount ds := by
  simp [totalCount]

/-- The batch inner loop advances the device-id counter by the batch
count. -/
theorem applyBatchLoop_fst {α : Type} (n : Nat) (a : α) (c : Nat) :
    ∀ nodeId store, (applyBatchLoop n a c nodeId store).1 = nodeId + c := by
  induction c with
  | zero => intro nodeId store; rfl
  | succ c ih =>
      intro nodeId store
      simp only [applyBatchLoop]
      rw [ih]
      omega

/-- Characterization of the batch inner loop's store: the batch
attributes land exactly on the existing devices of the claimed contiguous
range. -/
theorem applyBatchLoop_snd {α : Type} (n : Nat) (a : α) (c : Nat) :
    ∀ nodeId store j, (applyBatchLoop n a c nodeId store).2 j
      = if nodeId ≤ j ∧ j < nodeId + c ∧ j < n then some a else store j := by
  induction c with
  | zero =>
      intro nodeId store j
      rw [if_neg (by omega)]
      rfl
  | succ c ih =>
      intro nodeId store j
      simp only [applyBatchLoop]
      rw [ih]
      by_cases hn : nodeId < n
      · rw [if_pos hn]
        simp only [setAttr]
        split_ifs <;> first | rfl | (exfalso; omega)
      · rw [if_neg hn]
        split_ifs <;> first | rfl | (exfalso; omega)

/-- Devices outside every batch's claimed range (before the walk, past
the total claimed count, or absent from the graph) keep their prior
attributes. -/
theorem applyDefs_out {α : Type} (n : Nat) :
    ∀ (defs : List (NodeDefinition α)) nodeId store j,
    (j < nodeId ∨ nodeId + totalCount defs ≤ j ∨ n ≤ j) →
    applyDefs n defs nodeId store j = store j := by
  intro defs
  induction defs with
  | nil => intro nodeId store j _; rfl
  | cons d ds ih =>
      intro nodeId store j h
      rw [totalCount_cons] at h
      show applyDefs n ds (applyBatchLoop n d.attributes d.count nodeId store).1
        (applyBatchLoop n d.attributes d.count nodeId store).2 j = store j
      rw [applyBatchLoop_fst]
      rw [ih (nodeId + d.count) _ j (by omega)]
      rw [applyBatchLoop_snd]
      rw [if_neg (by omega)]

/-- A device inside batch `i`'s claimed range (and present in the graph)
receives exactly batch `i`'s attributes. -/
theorem applyDefs_in {α : Type} (n : Nat) :
    ∀ (defs : List (NodeDefinition α)) (i : Nat) (hi : i < defs.length)
      (nodeId : Nat) (store : Nat → Option α) (j : Nat),
    nodeId + countBefore defs i ≤ j →
    j < nodeId + countBefore defs i + (defs.get ⟨i, hi⟩).count →
    j < n →
    applyDefs n defs nodeId store j = some (defs.get ⟨i, hi⟩).attributes := by
  intro defs
  induction defs with
  | nil => intro i hi; exact absurd hi (by simp)
  | cons d ds ih =>
      intro i hi nodeId store j h1 h2 h3
      show applyDefs n ds (applyBatchLoop n d.attributes d.count nodeId store).1
        (applyBatchLoop n d.attributes d.count nodeId store).2 j = _
      rw [applyBatchLoop_fst]
      cases i with
      | zero =>
          rw [countBefore_zero] at h1 h2
          have hg : (d :: ds).get ⟨0, hi⟩ = d := rfl
          rw [hg] at h2 ⊢
          rw [applyDefs_out n ds (nodeId + d.count) _ j (Or.inl (by omega))]
          rw [applyBatchLoop_snd]
          rw [if_pos ⟨by omega, by omega, h3⟩]
      | succ i' =>
          rw [countBefore_cons_succ] at h1 h2
          have hi' : i' < ds.length := by simpa using hi
          have hg : (d :: ds).get ⟨i' + 1, hi⟩ = ds.get ⟨i', hi'⟩ := rfl
          rw [hg] at h2 ⊢
          exact ih i' hi' (nodeId + d.count) _ j (by omega) (by omega) h3

/-- C7: sequential batch assignment walks device ids in order — batch `i`
is written to exactly the contiguous id range starting at the sum of the
counts of the preceding batches, with the batch's count as length,
clipped to the devices that exist; devices outside every claimed range
keep their prior attributes. -/
theorem sequential_batch_assignment {α : Type} (n : Nat)
    (defs : List (NodeDefinition α)) (store : Nat → Option α) :
    (∀ (i : Nat) (hi : i < defs.length) (j : Nat),
      countBefore defs i ≤ j →
      j < countBefore defs i + (defs.get ⟨i, hi⟩).count →
      j < n →
      applyNodeDefinitions n defs store j = some (defs.get ⟨i, hi⟩).attributes)
    ∧ (∀ j : Nat, totalCount defs ≤ j ∨ n ≤ j →
      applyNodeDefinitions n defs store j = store j) := by
  constructor
  · intro i hi j h1 h2 h3
    exact applyDefs_in n defs i hi 0 store j (by omega) (by omega) h3
  · intro j h
    exact applyDefs_out n defs 0 store j (by omega)

/-- Witness for C7 at a concrete input: with batches `[2 × 10, 2 × 20]`
on 5 devices, device 2 (start of batch 1's range `[2,4)`) gets 20, and
uncovered device 4 keeps its prior (empty) attributes. -/
theorem sequential_batch_assignment_witness :
    applyNodeDefinitions 5 [⟨2, 10⟩, ⟨2, 20⟩] (fun _ => (none : Option Nat)) 2
        = some 20
    ∧ applyNodeDefinitions 5 [⟨2, 10⟩, ⟨2, 20⟩] (fun _ => (none : Option Nat)) 4
        = none :=
  ⟨(sequential_batch_assignment 5 [⟨2, 10⟩, ⟨2, 20⟩] (fun _ => none)).1
      1 (by decide) 2 (by decide) (by decide) (by decide),
   (sequential_batch_assignment 5 [⟨2, 10⟩, ⟨2, 20⟩] (fun _ => none)).2
      4 (Or.inl (by decide))⟩

/-- C9: when the batches over-subscribe the device count, assignment is
silently truncated at `n` — ids past the graph are discarded while every
existing device still receives its batch's attributes; the assignment is
a total function, so no error is possible. -/
theorem oversubscribed_truncation {α : Type} (n : Nat)
    (defs : List (NodeDefinition α)) (store : Nat → Option α)
    (_hover : n < totalCount defs) :
    (∀ j, n ≤ j → applyNodeDefinitions n defs store j = store j)
    ∧ (∀ (i : Nat) (hi : i < defs.length) (j : Nat),
      countBefore defs i ≤ j →
      j < countBefore defs i + (defs.get ⟨i, hi⟩).count →
      j < n →
      applyNodeDefinitions n defs store j = some (defs.get ⟨i, hi⟩).attributes) :=
  ⟨fun j hj => applyDefs_out n defs 0 store j (by omega),
   fun i hi j h1 h2 h3 => applyDefs_in n defs i hi 0 store j (by omega) (by omega) h3⟩

/-- Witness for C9 at a concrete input: one batch of 5 devices on a
2-device graph — the excess is discarded without error and both existing
devices are still assigned. -/
theorem oversubscribed_truncation_witness :
    (2 : Nat) < totalCount [(⟨5, 42⟩ : NodeDefinition Nat)]
    ∧ applyNodeDefinitions 2 [⟨5, 42⟩] (fun _ => (none : Option Nat)) 3 = none
    ∧ applyNodeDefinitions 2 [⟨5, 42⟩] (fun _ => (none : Option Nat)) 1 = some 42 :=
  ⟨by decide,
   (oversubscribed_truncation 2 [⟨5, 42⟩] (fun _ => none) (by decide)).1 3 (by decide),
   (oversubscribed_truncation 2 [⟨5, 42⟩] (fun _ => none) (by decide)).2
      0 (by decide) 1 (by decide) (by decide) (by decide)⟩

/-- The random-mode batch inner loop advances the device-id counter by
the batch count, like the sequential one. -/
theorem randBatchLoop_fst {α : Type} (n : Nat) (π : Equiv.Perm Nat) (a : α)
    (c : Nat) :
    ∀ nodeId store, (randBatchLoop n π a c nodeId store).1 = nodeId + c := by
  induction c with
  | zero => intro nodeId store; rfl
  | succ c ih =>
      intro nodeId store
      simp only [randBatchLoop]
      rw [ih]
      omega

/-- The random-mode inner loop writes the permuted image of what the
sequential inner loop writes: related input stores yield related output
stores. -/
theorem randBatchLoop_rel {α : Type} (n : Nat) (π : Equiv.Perm Nat)
    (hπ : ∀ j, π j < n ↔ j < n) (a : α) (c : Nat) :
    ∀ (nodeId : Nat) (storeS storeR : Nat → Option α),
    (∀ j, storeR j = storeS (π.symm j)) →
    ∀ j, (randBatchLoop n π a c nodeId storeR).2 j
      = (applyBatchLoop n a c nodeId storeS).2 (π.symm j) := by
  induction c with
  | zero => intro nodeId storeS storeR hrel j; exact hrel j
  | succ c ih =>
      intro nodeId storeS storeR hrel j
      simp only [randBatchLoop, applyBatchLoop]
      apply ih
      intro j'
      by_cases hn : nodeId < n
      · rw [if_pos ((hπ nodeId).mpr hn), if_pos hn]
        simp only [setAttr]
        by_cases hj : j' = π nodeId
        · rw [if_pos hj, if_pos (by rw [hj, Equiv.symm_apply_apply])]
        · rw [if_neg hj,
            if_neg (fun h => hj (by rw [← h, Equiv.apply_symm_apply]))]
          exact hrel j'
      · rw [if_neg (fun h => hn ((hπ nodeId).mp h)), if_neg hn]
        exact hrel j'

/-- The random-mode outer loop produces the sequential assignment
precomposed with the inverse permutation. -/
theorem randDefs_rel {α : Type} (n : Nat) (π : Equiv.Perm Nat)
    (hπ : ∀ j, π j < n ↔ j < n) :
    ∀ (defs : List (NodeDefinition α)) (nodeId : Nat)
      (storeS storeR : Nat → Option α),
    (∀ j, storeR j = storeS (π.symm j)) →
    ∀ j, randDefs n π defs nodeId storeR j
      = applyDefs n defs nodeId storeS (π.symm j) := by
  intro defs
  induction defs with
  | nil => intro nodeId storeS storeR hrel j; exact hrel j
  | cons d ds ih =>
      intro nodeId storeS storeR hrel j
      show randDefs n π ds (randBatchLoop n π d.attributes d.count nodeId storeR).1
        (randBatchLoop n π d.attributes d.count nodeId storeR).2 j = _
      rw [randBatchLoop_fst]
      have : applyDefs n (d :: ds) nodeId storeS (π.symm j)
          = applyDefs n ds (nodeId + d.count)
              (applyBatchLoop n d.attributes d.count nodeId storeS).2 (π.symm j) := by
        show applyDefs n ds (applyBatchLoop n d.attributes d.count nodeId storeS).1
          (applyBatchLoop n d.attributes d.count nodeId storeS).2 (π.symm j) = _
        rw [applyBatchLoop_fst]
      rw [this]
      exact ih (nodeId + d.count) _ _
        (randBatchLoop_rel n π hπ d.attributes d.count nodeId storeS storeR hrel) j

/-- The inverse of a permutation of `0..n-1` also maps `0..n-1` onto
itself. -/
theorem perm_symm_lt {n : Nat} {π : Equiv.Perm Nat}
    (hπ : ∀ j, π j < n ↔ j < n) (j : Nat) : π.symm j < n ↔ j < n := by
  have h := hπ (π.symm j)
  rw [Equiv.apply_symm_apply] at h
  exact h.symm

/-- C8: for the same ordered node definitions and a uniform base store,
the random (permuted) and sequential batch assignments give the same
number of devices to every attribute value — the permutation only moves
which device ids receive which attribute map. -/
theorem distribution_equivalence {α : Type} [DecidableEq α] (n : Nat)
    (defs : List (NodeDefinition α)) (base : Option α) (π : Equiv.Perm Nat)
    (hπ : ∀ j, π j < n ↔ j < n) (a : α) :
    ((Finset.range n).filter
      (fun j => randApplyNodeDefinitions n π defs (fun _ => base) j = some a)).card
    = ((Finset.range n).filter
      (fun j => applyNodeDefinitions n defs (fun _ => base) j = some a)).card := by
  have hpoint : ∀ j, randApplyNodeDefinitions n π defs (fun _ => base) j
      = applyNodeDefinitions n defs (fun _ => base) (π.symm j) :=
    fun j => randDefs_rel n π hπ defs 0 (fun _ => base) (fun _ => base)
      (fun _ => rfl) j
  have himg : (Finset.range n).filter
      (fun j => randApplyNodeDefinitions n π defs (fun _ => base) j = some a)
      = ((Finset.range n).filter
        (fun j => applyNodeDefinitions n defs (fun _ => base) j = some a)).image
          (fun k => π k) := by
    ext j
    simp only [Finset.mem_filter, Finset.mem_image, Finset.mem_range, hpoint]
    constructor
    · intro h
      exact ⟨π.symm j, ⟨(perm_symm_lt hπ j).mpr h.1, h.2⟩, Equiv.apply_symm_apply π j⟩
    · rintro ⟨k, ⟨hk, hka⟩, rfl⟩
      rw [Equiv.symm_apply_apply]
      exact ⟨(hπ k).mpr hk, hka⟩
  rw [himg, Finset.card_image_of_injective _ π.injective]

/-- Explicit transposition of device ids 0 and 1, used as the concrete
permutation of the C8 witness. -/
def permWf : Nat → Nat := fun j => if j = 0 then 1 else if j = 1 then 0 else j

/-- `permWf` is an involution. -/
theorem permWf_invol : ∀ j, permWf (permWf j) = j := by
  intro j
  match j with
  | 0 => rfl
  | 1 => rfl
  | (k + 2) =>
      have h : permWf (k + 2) = k + 2 := by
        unfold permWf
        rw [if_neg (by omega), if_neg (by omega)]
      rw [h]
      exact h

/-- The transposition of 0 and 1 as a permutation of the device-id
space. -/
def permW : Equiv.Perm Nat := ⟨permWf, permWf, permWf_invol, permWf_invol⟩

/-- `permW` fixes every id at least 2. -/
theorem permW_ge (j : Nat) (h : 2 ≤ j) : permW j = j := by
  show permWf j = j
  unfold permWf
  rw [if_neg (by omega), if_neg (by omega)]

/-- Witness for C8 at a concrete input: swapping devices 0 and 1 on 3
devices with batches `[2 × 7, 1 × 9]` preserves the number of devices
assigned 7. -/
theorem distribution_equivalence_witness :
    ((Finset.range 3).filter
      (fun j => randApplyNodeDefinitions 3 permW [⟨2, 7⟩, ⟨1, 9⟩]
        (fun _ => (none : Option Nat)) j = some 7)).card
    = ((Finset.range 3).filter
      (fun j => applyNodeDefinitions 3 [⟨2, 7⟩, ⟨1, 9⟩]
        (fun _ => (none : Option Nat)) j = some 7)).card :=
  distribution_equivalence 3 [⟨2, 7⟩, ⟨1, 9⟩] none permW
    (by
      intro j
      rcases j with _ | (_ | k)
      · decide
      · decide
      · rw [permW_ge (k + 2) (by omega)])
    7

/-! ### Driver lemmas -/

/-- `applyDelta` on a device of the step's `newly_infected` set. -/
theorem applyDelta_newly (cfg : MalwareConfig) (k : Nat) (newly : List Nat)
    (st : Nat → InfState) (d : Nat) (h : d ∈ newly) :
    applyDelta cfg k newly st d = infectState cfg k := by
  unfold applyDelta
  rw [if_pos h]

/-- `applyDelta` on a device outside the step's `newly_infected` set:
only the incubation promotion can apply. -/
theorem applyDelta_not_newly (cfg : MalwareConfig) (k : Nat) (newly : List Nat)
    (st : Nat → InfState) (d : Nat) (h : d ∉ newly) :
    applyDelta cfg k newly st d
      = match st d with
        | InfState.incubating since act =>
            if act = k then InfState.infectious else InfState.incubating since act
        | x => x := by
  unfold applyDelta
  rw [if_neg h]

/-- A step's delta never returns a device to `Healthy`. -/
theorem applyDelta_healthy_rev (cfg : MalwareConfig) (k : Nat) (newly : List Nat)
    (st : Nat → InfState) (d : Nat)
    (h : applyDelta cfg k newly st d = InfState.healthy) :
    st d = InfState.healthy := by
  by_cases hm : d ∈ newly
  · rw [applyDelta_newly cfg k newly st d hm] at h
    unfold infectState at h
    split_ifs at h
  · rw [applyDelta_not_newly cfg k newly st d hm] at h
    cases hst : st d with
    | healthy => rfl
    | incubating since act =>
        rw [hst] at h
        exfalso
        have h' : (if act = k then InfState.infectious
            else InfState.incubating since act) = InfState.healthy := h
        revert h'
        split_ifs <;> exact id
    | infectious =>
        rw [hst] at h
        exact InfState.noConfusion h

/-- The infected count never drops across a step. -/
theorem totalInfected_mono (n : Nat) (cfg : MalwareConfig) (k : Nat)
    (newly : List Nat) (st : Nat → InfState) :
    totalInfected n st ≤ totalInfected n (applyDelta cfg k newly st) := by
  unfold totalInfected
  apply List.countP_mono_left
  intro d _ hd
  simp only [Bool.not_eq_true', beq_eq_false_iff_ne, ne_eq] at hd ⊢
  intro hcontra
  exact hd (applyDelta_healthy_rev cfg k newly st d hcontra)

/-- Every record of the remaining run reports at least the incoming
state's infected count. -/
theorem runAux_total_lb (n : Nat) (cfg : MalwareConfig)
    (engine : Nat → (Nat → InfState) → List Nat) :
    ∀ (fuel k : Nat) (st : Nat → InfState) (r : StepRecord),
    r ∈ (runAux n cfg engine fuel k st).1 → totalInfected n st ≤ r.total := by
  intro fuel
  induction fuel with
  | zero =>
      intro k st r hr
      simp only [runAux, List.not_mem_nil] at hr
  | succ fuel ih =>
      intro k st r hr
      simp only [runAux] at hr
      by_cases hstop : ((engine k st).isEmpty
          && !anyIncubating n (applyDelta cfg k (engine k st) st)) = true
      · rw [if_pos hstop] at hr
        simp only [List.not_mem_nil] at hr
      · rw [if_neg hstop] at hr
        rcases List.mem_cons.mp hr with hhd | htl
        · rw [hhd]
          exact totalInfected_mono n cfg k (engine k st) st
        · exact le_trans (totalInfected_mono n cfg k (engine k st) st)
            (ih (k + 1) (applyDelta cfg k (engine k st) st) r htl)

/-- The recorded totals are non-decreasing along the history. -/
theorem runAux_chain (n : Nat) (cfg : MalwareConfig)
    (engine : Nat → (Nat → InfState) → List Nat) :
    ∀ (fuel k : Nat) (st : Nat → InfState),
    List.Chain' (fun a b => a.total ≤ b.total) (runAux n cfg engine fuel k st).1 := by
  intro fuel
  induction fuel with
  | zero => intro k st; exact List.chain'_nil
  | succ fuel ih =>
      intro k st
      simp only [runAux]
      by_cases hstop : ((engine k st).isEmpty
          && !anyIncubating n (applyDelta cfg k (engine k st) st)) = true
      · rw [if_pos hstop]
        exact List.chain'_nil
      · rw [if_neg hstop]
        apply List.chain'_cons'.mpr
        refine ⟨fun b hb => ?_, ih (k + 1) (applyDelta cfg k (engine k st) st)⟩
        exact runAux_total_lb n cfg engine fuel (k + 1)
          (applyDelta cfg k (engine k st) st) b (List.mem_of_mem_head? hb)

/-- C4: within one run, the cumulative infected count recorded at each
step is at least the count recorded at the preceding step (devices never
return to `Healthy`). -/
theorem monotonic_infected (g : Graph) (attrs : Nat → Option Attrs)
    (cfg : MalwareConfig) (u : Nat → Nat → Nat → ℚ) (maxSteps : Nat)
    (ids : List Nat) :
    List.Chain' (fun a b => a.total ≤ b.total)
      (run g attrs cfg u maxSteps ids).1 :=
  runAux_chain g.n cfg (newlyList g attrs cfg u) maxSteps 1 (initState ids)

/-- The driver performs at most `fuel` step evaluations. -/
theorem runAux_evals_le (n : Nat) (cfg : MalwareConfig)
    (engine : Nat → (Nat → InfState) → List Nat) :
    ∀ (fuel k : Nat) (st : Nat → InfState),
    (runAux n cfg engine fuel k st).2.2 ≤ fuel := by
  intro fuel
  induction fuel with
  | zero => intro k st; exact Nat.le_refl 0
  | succ fuel ih =>
      intro k st
      simp only [runAux]
      by_cases hstop : ((engine k st).isEmpty
          && !anyIncubating n (applyDelta cfg k (engine k st) st)) = true
      · rw [if_pos hstop]
        show (1 : Nat) ≤ fuel + 1
        omega
      · rw [if_neg hstop]
        have := ih (k + 1) (applyDelta cfg k (engine k st) st)
        show (runAux n cfg engine fuel (k + 1)
          (applyDelta cfg k (engine k st) st)).2.2 + 1 ≤ fuel + 1
        omega

/-- On a steady-state step — no new infections and no incubating device
pending — the driver performs that single evaluation and halts without
recording it. -/
theorem runAux_steady_stop (n : Nat) (cfg : MalwareConfig)
    (engine : Nat → (Nat → InfState) → List Nat) (fuel k : Nat)
    (st : Nat → InfState)
    (h1 : (engine k st).isEmpty = true)
    (h2 : anyIncubating n (applyDelta cfg k (engine k st) st) = false) :
    runAux n cfg engine (fuel + 1) k st
      = ([], applyDelta cfg k (engine k st) st, 1) := by
  simp only [runAux]
  rw [if_pos (by rw [h1, h2]; rfl)]

/-- A non-terminal step prepends its record and recurses. -/
theorem runAux_go (n : Nat) (cfg : MalwareConfig)
    (engine : Nat → (Nat → InfState) → List Nat) (fuel k : Nat)
    (st : Nat → InfState)
    (h : ((engine k st).isEmpty
      && !anyIncubating n (applyDelta cfg k (engine k st) st)) = false) :
    runAux n cfg engine (fuel + 1) k st
      = (⟨k, engine k st, totalInfected n (applyDelta cfg k (engine k st) st)⟩ ::
            (runAux n cfg engine fuel (k + 1) (applyDelta cfg k (engine k st) st)).1,
          (runAux n cfg engine fuel (k + 1) (applyDelta cfg k (engine k st) st)).2.1,
          (runAux n cfg engine fuel (k + 1) (applyDelta cfg k (engine k st) st)).2.2 + 1) := by
  simp only [runAux]
  rw [if_neg (by rw [h]; exact Bool.false_ne_true)]

/-- C5: the driver halts after at most `max_steps + 1` step evaluations,
and halts immediately (one evaluation, nothing further) on any step that
infects nobody and leaves no incubating device pending activation. -/
theorem termination_bound (g : Graph) (attrs : Nat → Option Attrs)
    (cfg : MalwareConfig) (u : Nat → Nat → Nat → ℚ) (maxSteps : Nat)
    (ids : List Nat) :
    (run g attrs cfg u maxSteps ids).2.2 ≤ maxSteps + 1
    ∧ ∀ (fuel k : Nat) (st : Nat → InfState),
      (newlyList g attrs cfg u k st).isEmpty = true →
      anyIncubating g.n
        (applyDelta cfg k (newlyList g attrs cfg u k st) st) = false →
      (runAux g.n cfg (newlyList g attrs cfg u) (fuel + 1) k st).2.2 = 1 := by
  constructor
  · exact le_trans
      (runAux_evals_le g.n cfg (newlyList g attrs cfg u) maxSteps 1 (initState ids))
      (by omega)
  · intro fuel k st h1 h2
    rw [runAux_steady_stop g.n cfg (newlyList g attrs cfg u) fuel k st h1 h2]

/-- Witness for C5 at a concrete input: a 2-device run is bounded by
`max_steps + 1` evaluations, and from an all-healthy state the driver
halts after a single evaluation. -/
theorem termination_bound_witness :
    (run (gC 2) attrsAdminW cfg0 uZero 3 [0]).2.2 ≤ 3 + 1
    ∧ (runAux (gC 2).n cfg0 (newlyList (gC 2) attrsAdminW cfg0 uZero)
        (5 + 1) 1 (fun _ => InfState.healthy)).2.2 = 1 :=
  ⟨(termination_bound (gC 2) attrsAdminW cfg0 uZero 3 [0]).1,
   (termination_bound (gC 2) attrsAdminW cfg0 uZero 3 [0]).2 5 1
      (fun _ => InfState.healthy) (by decide) (by decide)⟩

/-! ### Latency lemmas -/

/-- A device that appears in a step's `newly_infected` set was healthy in
that step's snapshot (eligibility requires a `Healthy` target). -/
theorem mem_newlyList_healthy {g : Graph} {attrs : Nat → Option Attrs}
    {cfg : MalwareConfig} {u : Nat → Nat → Nat → ℚ} {k : Nat}
    {st : Nat → InfState} {d : Nat}
    (h : d ∈ newlyList g attrs cfg u k st) : st d = InfState.healthy := by
  have h2 := (List.mem_filter.mp h).2
  simp only [List.any_eq_true] at h2
  obtain ⟨s, _, hib⟩ := h2
  simp only [infectedBy, Bool.and_eq_true, decide_eq_true_eq] at hib
  have hmem := mem_of_mem_tested hib.1.2
  have helig := (List.mem_filter.mp hmem).2
  simp only [eligible, Bool.and_eq_true, beq_iff_eq] at helig
  exact helig.1.1.1.1.2

/-- A device healthy at some point of the trajectory was healthy at every
earlier point. -/
theorem healthy_back (g : Graph) (attrs : Nat → Option Attrs)
    (cfg : MalwareConfig) (u : Nat → Nat → Nat → ℚ) (ids : List Nat) :
    ∀ (k' d : Nat), iterState g attrs cfg u ids k' d = InfState.healthy →
    ∀ k, k ≤ k' → iterState g attrs cfg u ids k d = InfState.healthy := by
  intro k'
  induction k' with
  | zero =>
      intro d h k hk
      have : k = 0 := by omega
      rw [this]
      exact h
  | succ k'' ih =>
      intro d h k hk
      rcases Nat.lt_or_ge k (k'' + 1) with hlt | hge
      · apply ih d _ k (by omega)
        simp only [iterState] at h
        exact applyDelta_healthy_rev _ _ _ _ _ h
      · have : k = k'' + 1 := by omega
        rw [this]
        exact h

/-- A device infected at step `s` with positive latency stays
`Incubating(s, s + latency)` through the whole window `[s, s + latency)`
of the trajectory. -/
theorem incub_window (g : Graph) (attrs : Nat → Option Attrs)
    (cfg : MalwareConfig) (u : Nat → Nat → Nat → ℚ) (ids : List Nat)
    (d s : Nat) (hs : 1 ≤ s) (hL : 1 ≤ cfg.latency)
    (hinf : d ∈ newlyList g attrs cfg u s (iterState g attrs cfg u ids (s - 1))) :
    ∀ k, s ≤ k → k < s + cfg.latency →
    iterState g attrs cfg u ids k d
      = InfState.incubating s (s + cfg.latency) := by
  intro k
  induction k with
  | zero => intro h1 _; exact absurd (le_trans hs h1) (by omega)
  | succ k'' ih =>
      intro h1 h2
      rcases Nat.eq_or_lt_of_le h1 with heq | hlt
      · -- the infection step itself: s = k'' + 1
        have hk : k'' = s - 1 := by omega
        simp only [iterState]
        rw [hk]
        rw [show s - 1 + 1 = s from by omega]
        rw [applyDelta_newly _ _ _ _ _ hinf]
        unfold infectState
        rw [if_neg (by omega)]
      · -- inside the window: s ≤ k'' < s + latency
        have hk := ih (by omega) (by omega)
        simp only [iterState]
        have hnot : d ∉ newlyList g attrs cfg u (k'' + 1)
            (iterState g attrs cfg u ids k'') := by
          intro hmem
          have hh := mem_newlyList_healthy hmem
          rw [hk] at hh
          exact InfState.noConfusion hh
        rw [applyDelta_not_newly _ _ _ _ _ hnot, hk]
        show (if s + cfg.latency = k'' + 1 then InfState.infectious
          else InfState.incubating s (s + cfg.latency))
          = InfState.incubating s (s + cfg.latency)
        rw [if_neg (by omega)]

/-- C3: a device that becomes infected at step `s` under latency `L`
contributes no infection targets at any step earlier than `s + L` — in
the window it is healthy or incubating, never an infectious source. -/
theorem latency_invariant (g : Graph) (attrs : Nat → Option Attrs)
    (cfg : MalwareConfig) (u : Nat → Nat → Nat → ℚ) (ids : List Nat)
    (d s m : Nat) (hs : 1 ≤ s)
    (hinf : d ∈ newlyList g attrs cfg u s (iterState g attrs cfg u ids (s - 1)))
    (hm : 1 ≤ m) (hlt : m < s + cfg.latency) :
    ∀ t, infectedBy g attrs cfg u m (iterState g attrs cfg u ids (m - 1)) d t
      = false := by
  intro t
  have hstate : iterState g attrs cfg u ids (m - 1) d ≠ InfState.infectious := by
    rcases Nat.lt_or_ge (m - 1) s with hlt1 | hge
    · have hh := mem_newlyList_healthy hinf
      have := healthy_back g attrs cfg u ids (s - 1) d hh (m - 1) (by omega)
      rw [this]
      exact fun hcontra => InfState.noConfusion hcontra
    · have hwin := incub_window g attrs cfg u ids d s hs (by omega) hinf
        (m - 1) hge (by omega)
      rw [hwin]
      exact fun hcontra => InfState.noConfusion hcontra
  have hbeq : (iterState g attrs cfg u ids (m - 1) d == InfState.infectious)
      = false := beq_eq_false_iff_ne.mpr hstate
  simp only [infectedBy, hbeq, Bool.false_and]

/-- Witness for C3 at a concrete input: with latency 2, device 1 infected
at step 1 is not an infectious source at step 2 (< 1 + 2). -/
theorem latency_invariant_witness :
    infectedBy (gC 2) attrsAdminW cfgL2 uZero 2
      (iterState (gC 2) attrsAdminW cfgL2 uZero [0] (2 - 1)) 1 0 = false :=
  latency_invariant (gC 2) attrsAdminW cfgL2 uZero [0] 1 1 2
    (by decide) (by decide) (by decide) (by decide) 0

/-! ### Scenario A -/

/-- The spread engine of Scenario A with the Bernoulli trials elided:
with `infection_rate = 1` every draw in `[0,1)` succeeds, so only
membership in the sampled eligible frontier matters. -/
def engineA (_k : Nat) (st : Nat → InfState) : List Nat :=
  (List.range 10).filter (fun t =>
    (List.range 10).any (fun s =>
      (st s == InfState.infectious)
        && decide (t ∈ tested (gC 10) attrsAdminW st cfg0 s)))

/-- With `infection_rate = 1` and draws in `[0,1)`, the Scenario A spread
step coincides with the trial-free engine. -/
theorem newlyList_rate_one (u : Nat → Nat → Nat → ℚ)
    (hu : ∀ k s t, u k s t < 1) (k : Nat) (st : Nat → InfState) :
    newlyList (gC 10) attrsAdminW cfg0 u k st = engineA k st := by
  unfold newlyList engineA
  congr 1
  funext t
  congr 1
  funext s
  show ((st s == InfState.infectious)
      && decide (t ∈ tested (gC 10) attrsAdminW st cfg0 s)
      && decide (u k s t < effRate cfg0))
    = ((st s == InfState.infectious)
      && decide (t ∈ tested (gC 10) attrsAdminW st cfg0 s))
  rw [show effRate cfg0 = 1 from rfl]
  rw [decide_eq_true (hu k s t), Bool.and_true]

/-- C6: Scenario A — complete topology on 10 devices, certain infection,
zero latency, patient zero `device_0`: step 1 infects the remaining nine
devices, the history is that single step, and all 10 devices end up
infected (`total_steps = 1`, `total_infected = 10`). -/
theorem scenario_a (u : Nat → Nat → Nat → ℚ) (hu : ∀ k s t, u k s t < 1)
    (maxSteps : Nat) (hms : 1 ≤ maxSteps) :
    (run (gC 10) attrsAdminW cfg0 u maxSteps [0]).1
      = [⟨1, [1, 2, 3, 4, 5, 6, 7, 8, 9], 10⟩]
    ∧ (run (gC 10) attrsAdminW cfg0 u maxSteps [0]).1.length = 1
    ∧ totalInfected 10 (run (gC 10) attrsAdminW cfg0 u maxSteps [0]).2.1 = 10 := by
  have he : newlyList (gC 10) attrsAdminW cfg0 u = engineA :=
    funext fun k => funext fun st => newlyList_rate_one u hu k st
  unfold run
  rw [he]
  obtain ⟨m, rfl⟩ : ∃ m, maxSteps = m + 1 := ⟨maxSteps - 1, by omega⟩
  cases m with
  | zero => exact ⟨by decide, by decide, by decide⟩
  | succ m' =>
      rw [runAux_go (gC 10).n cfg0 engineA (m' + 1) 1 (initState [0]) (by decide)]
      rw [runAux_steady_stop (gC 10).n cfg0 engineA m' 2
        (applyDelta cfg0 1 (engineA 1 (initState [0])) (initState [0]))
        (by decide) (by decide)]
      exact ⟨by decide, by decide, by decide⟩

/-- Witness for C6 at a concrete input: the all-zero draw sequence and
`max_steps = 100`. -/
theorem scenario_a_witness :
    (run (gC 10) attrsAdminW cfg0 uZero 100 [0]).1
      = [⟨1, [1, 2, 3, 4, 5, 6, 7, 8, 9], 10⟩] :=
  (scenario_a uZero (fun _ _ _ => show (0 : ℚ) < 1 by norm_num) 100 (by omega)).1

end MSpread
